import Mathlib

/-!
Verification of the availability & booking engine of the
`retell-calendar-webhook` repository against its specification.

Modelling conventions, used throughout:

* Time is modelled at whole-minute granularity: a luxon `DateTime` becomes an
  `Int` counting minutes since an epoch (day 0, 00:00 UTC).  All the source's
  comparisons (`<`, `<=`) between `DateTime`s compare instants, which this
  model preserves; `.plus({minutes: n})` becomes `+ n`.
* A calendar day (an ISO date string such as `"2025-11-06"`) becomes the `Int`
  day index `d`; its start-of-day instant is `d * 1440`.
* A fixed-offset timezone model: a zone is its UTC offset in minutes `off`,
  the wall clock of instant `t` in that zone is `t + off`, and
  `DateTime.fromISO(wall, {zone})` yields the instant `wall - off`.
  (DST transitions are outside the scope of the minute model.)
* Parsing by luxon (`DateTime.fromISO` etc.) is an external library; its
  outcome on a given string is modelled as an `Option Int` oracle carried by
  the input structure (`none` = invalid parse).
-/

/-- Plain interval record `{start, end}` as used by `mergeIntervals` and the
slot scanners in `src/unnamed/part_002` and `src/GoogleCalendarWebhook.js`.
The source field `end` is a Lean keyword and is rendered `stop` here. -/
structure Iv where
  start : Int
  stop : Int
deriving DecidableEq, Repr

/-- Comparator of the JS sort `(a, b) => a.start.toMillis() - b.start.toMillis()`:
`a` stays before `b` when `a.start <= b.start` (ES2019 `Array.prototype.sort`
is stable). -/
def ivLe (a b : Iv) : Bool := decide (a.start ≤ b.start)

/-- The `intervals.slice().sort((a, b) => a.start.toMillis() - b.start.toMillis())`
step of `mergeIntervals` (src/unnamed/part_002 line 106), as a stable sort by
start. -/
def sortByStart (l : List Iv) : List Iv := l.mergeSort ivLe

/-- The fold of `mergeIntervals` (src/unnamed/part_002 lines 110-121):
`current` is extended whenever the next interval's start is `<=` the current
end (taking the larger end), and is emitted at a strict gap. -/
def mergeLoop (cur : Iv) (rest : List Iv) : List Iv :=
  match rest with
  | [] => [cur]
  | it :: rest' =>
    if it.start ≤ cur.stop then
      -- overlap or contiguous -> extend: `if (it.end > current.end) current.end = it.end`
      mergeLoop ⟨cur.start, if cur.stop < it.stop then it.stop else cur.stop⟩ rest'
    else
      mergeLoop it rest' |>.cons cur

/-- `mergeIntervals(intervals)` of `src/unnamed/part_002` lines 104-122. -/
def mergeIntervals (intervals : List Iv) : List Iv :=
  match sortByStart intervals with
  | [] => []
  | first :: rest => mergeLoop first rest

theorem ivLe_trans : ∀ a b c : Iv, ivLe a b = true → ivLe b c = true → ivLe a c = true := by
  intro a b c hab hbc
  simp only [ivLe, decide_eq_true_eq] at *
  exact le_trans hab hbc

theorem ivLe_total : ∀ a b : Iv, (ivLe a b || ivLe b a) = true := by
  intro a b
  simp only [ivLe, Bool.or_eq_true, decide_eq_true_eq]
  exact le_total a.start b.start

theorem sortByStart_sorted (l : List Iv) :
    (sortByStart l).Pairwise (fun a b => a.start ≤ b.start) := by
  have h := List.sorted_mergeSort ivLe_trans ivLe_total l
  exact h.imp (by intro a b hab; simpa [ivLe] using hab)

theorem sortByStart_of_sorted {l : List Iv}
    (h : l.Pairwise (fun a b => a.start ≤ b.start)) : sortByStart l = l := by
  apply List.mergeSort_of_sorted
  exact h.imp (by intro a b hab; simpa [ivLe] using hab)

/-- Invariants of the merge fold: all output starts are at least `cur.start`,
output starts ascend, and consecutive output intervals are separated by a
strict gap (`a.stop < b.start`). -/
theorem mergeLoop_inv (rest : List Iv) : ∀ cur : Iv,
    rest.Pairwise (fun a b => a.start ≤ b.start) →
    (∀ iv ∈ rest, cur.start ≤ iv.start) →
    (∀ iv ∈ mergeLoop cur rest, cur.start ≤ iv.start) ∧
    (mergeLoop cur rest).Pairwise (fun a b => a.start ≤ b.start) ∧
    (mergeLoop cur rest).Pairwise (fun a b => a.stop < b.start) := by
  induction rest with
  | nil =>
    intro cur _ _
    simp [mergeLoop]
  | cons it rest' ih =>
    intro cur hsorted hcur
    have hit : cur.start ≤ it.start := hcur it (by simp)
    have hsorted' : rest'.Pairwise (fun a b => a.start ≤ b.start) :=
      (List.pairwise_cons.mp hsorted).2
    have hhead : ∀ iv ∈ rest', it.start ≤ iv.start :=
      (List.pairwise_cons.mp hsorted).1
    rw [mergeLoop]
    split
    case isTrue hle =>
      have := ih ⟨cur.start, if cur.stop < it.stop then it.stop else cur.stop⟩
        hsorted' (by intro iv hiv; exact le_trans hit (hhead iv hiv))
      exact this
    case isFalse hgt =>
      have hR := ih it hsorted' hhead
      obtain ⟨hR1, hR2, hR3⟩ := hR
      have hgap : cur.stop < it.start := by omega
      refine ⟨?_, ?_, ?_⟩
      · intro iv hiv
        rcases List.mem_cons.mp hiv with h | h
        · simp [h]
        · exact le_trans hit (hR1 iv h)
      · exact List.pairwise_cons.mpr
          ⟨fun iv hiv => le_trans hit (hR1 iv hiv), hR2⟩
      · exact List.pairwise_cons.mpr
          ⟨fun iv hiv => lt_of_lt_of_le hgap (hR1 iv hiv), hR3⟩

/-- C3: for every input collection of intervals, the output of
`mergeIntervals` is sorted ascending by start and no two output intervals
overlap or touch: every pair of output intervals (in order) satisfies
`a.end < b.start`.  (This is proved for arbitrary inputs, so in particular
for collections of valid intervals with `start < end`.) -/
theorem mergeIntervals_sorted_gapped (l : List Iv) :
    (mergeIntervals l).Pairwise (fun a b => a.start ≤ b.start) ∧
    (mergeIntervals l).Pairwise (fun a b => a.stop < b.start) := by
  unfold mergeIntervals
  have hs := sortByStart_sorted l
  cases h : sortByStart l with
  | nil => simp
  | cons first rest =>
    rw [h] at hs
    have := mergeLoop_inv rest first (List.pairwise_cons.mp hs).2
      (List.pairwise_cons.mp hs).1
    exact ⟨this.2.1, this.2.2⟩

/-- When every later interval starts strictly after `cur` ends and the rest is
already gapped, the fold changes nothing. -/
theorem mergeLoop_of_gapped (rest : List Iv) : ∀ cur : Iv,
    (∀ iv ∈ rest, cur.stop < iv.start) →
    rest.Pairwise (fun a b => a.stop < b.start) →
    mergeLoop cur rest = cur :: rest := by
  induction rest with
  | nil => intro cur _ _; simp [mergeLoop]
  | cons it rest' ih =>
    intro cur hgap hpw
    have h1 : cur.stop < it.start := hgap it (by simp)
    rw [mergeLoop]
    split
    case isTrue hle => omega
    case isFalse hgt =>
      rw [ih it (List.pairwise_cons.mp hpw).1 (List.pairwise_cons.mp hpw).2]

/-- C4: the busy-interval merge is idempotent: applying `mergeIntervals` to an
already-merged set returns an identical set, for every input set. -/
theorem mergeIntervals_idempotent (l : List Iv) :
    mergeIntervals (mergeIntervals l) = mergeIntervals l := by
  obtain ⟨hsort, hgap⟩ := mergeIntervals_sorted_gapped l
  conv_lhs => rw [mergeIntervals]
  rw [sortByStart_of_sorted hsort]
  cases h : mergeIntervals l with
  | nil => rfl
  | cons first rest =>
    rw [h] at hgap
    exact mergeLoop_of_gapped rest first (List.pairwise_cons.mp hgap).1
      (List.pairwise_cons.mp hgap).2

/-- A slot produced by `findAvailableSlotsMultiDay`
(src/GoogleCalendarWebhook.js lines 320-325): the day's ISO date (modelled as
a day index) plus start/end instants.  The human-readable `display` string is
a rendering of the same data and is not modelled separately. -/
structure Slot where
  date : Int
  start : Int
  stop : Int
deriving DecidableEq, Repr

/-- The `requested_window` parameters extracted by `extractWindowParams`
(src/GoogleCalendarWebhook.js lines 183-202). -/
structure WindowParams where
  start_hour : Int
  end_hour : Int
  slot_duration_minutes : Int
deriving DecidableEq, Repr

/-- JS `Math.ceil(a / b)` for integers with `b > 0`, via Euclidean division. -/
def jsCeilDiv (a b : Int) : Int := -((-a) / b)

/-- Inner while loop of `findAvailableSlotsMultiDay`
(src/GoogleCalendarWebhook.js lines 311-329): while
`current + duration <= windowEnd` and the accumulated count is below
`maxSlots`, test the candidate against every busy interval with the half-open
rule `current < busy.end && slotEnd > busy.start`, push it when free, and
advance by the alignment grid.  For `align <= 0` the JS loop would never
advance (the module constant `SLOT_ALIGNMENT_MINUTES` is 15); the model
returns the accumulator in that degenerate case. -/
def slotLoop (align dur windowEnd : Int) (busy : List Iv) (dateStr : Int)
    (maxSlots : Nat) (current : Int) (acc : List Slot) : List Slot :=
  if align ≤ 0 then acc
  else if current + dur ≤ windowEnd ∧ acc.length < maxSlots then
    -- `slotEnd` is `current + dur`; `isAvailable` is the negated busy test
    slotLoop align dur windowEnd busy dateStr maxSlots (current + align)
      (if ! busy.any (fun b => decide (current < b.stop) && decide (b.start < current + dur)) then
        acc ++ [⟨dateStr, current, current + dur⟩]
      else acc)
  else acc
termination_by (windowEnd - dur - current + 1).toNat
decreasing_by omega

/-- Outer day loop of `findAvailableSlotsMultiDay`
(src/GoogleCalendarWebhook.js lines 270-330): for each day offset while the
quota is not reached, build the day's window from the window parameters, skip
a day whose window already ended, fetch that day's busy intervals (modelled
by the oracle `busyOf`), and start candidate generation at the window start -
advanced to the next aligned minute at or after `now` when the window has
already begun (`minutesFromNow` is `now - windowStart` at whole-minute
granularity, rounded up to a multiple of the alignment). -/
def multiDayLoop (startDay daysToCheck : Int) (wp : WindowParams)
    (align now : Int) (maxSlots : Nat) (busyOf : Int → List Iv)
    (dayOffset : Int) (acc : List Slot) : List Slot :=
  -- `checkDate` is `startDay + dayOffset`; `windowStart`/`windowEnd` set the
  -- day's `start_hour`/`end_hour`; `busy` is `busyOf checkDate`; `current`
  -- starts at `windowStart`, aligned past `now` when `windowStart <= now`.
  if dayOffset < daysToCheck ∧ acc.length < maxSlots then
    if (startDay + dayOffset) * 1440 + wp.end_hour * 60 ≤ now then
      multiDayLoop startDay daysToCheck wp align now maxSlots busyOf (dayOffset + 1) acc
    else
      multiDayLoop startDay daysToCheck wp align now maxSlots busyOf (dayOffset + 1)
        (slotLoop align wp.slot_duration_minutes
          ((startDay + dayOffset) * 1440 + wp.end_hour * 60)
          (busyOf (startDay + dayOffset)) (startDay + dayOffset) maxSlots
          (if (startDay + dayOffset) * 1440 + wp.start_hour * 60 ≤ now then
            (startDay + dayOffset) * 1440 + wp.start_hour * 60 +
              jsCeilDiv (now - ((startDay + dayOffset) * 1440 + wp.start_hour * 60)) align * align
          else (startDay + dayOffset) * 1440 + wp.start_hour * 60)
          acc)
  else acc
termination_by (daysToCheck - dayOffset).toNat
decreasing_by all_goals omega

/-- `findAvailableSlotsMultiDay(calendar, calendarId, startDate, daysToCheck,
windowParams, timezone, maxSlots)` of src/GoogleCalendarWebhook.js lines
266-333.  The Google client and the timezone label select the busy oracle and
the clock and carry no further algorithmic content in the minute model;
`maxSlots` defaults to 4 in the source. -/
def findAvailableSlotsMultiDay (startDay daysToCheck : Int) (wp : WindowParams)
    (align now : Int) (maxSlots : Nat) (busyOf : Int → List Iv) : List Slot :=
  multiDayLoop startDay daysToCheck wp align now maxSlots busyOf 0 []

/-- The slot scan of `checkAvailability` in src/src/GoogleCalendarWebhook.js
lines 52-71: back-to-back 30-minute candidates from 8:00 to 17:00 on the given
day, capped at 4, where a candidate is deemed unavailable iff
`(currentTime >= busy.start && currentTime < busy.end) ||
(slotEnd > busy.start && slotEnd <= busy.end)`.  The mapping of fetched
events to `busyTimes` is the same parse oracle as elsewhere, and the final
object of `slotN_start`/`slotN_end` 12-hour strings is a rendering of the
returned list. -/
def checkAvailabilityLoop (endTime : Int) (busyTimes : List Iv)
    (currentTime : Int) (acc : List Iv) : List Iv :=
  -- `slotEnd` is `currentTime + 30`; `isAvailable` negates the busy test
  if currentTime < endTime ∧ acc.length < 4 then
    checkAvailabilityLoop endTime busyTimes (currentTime + 30)
      (if ! busyTimes.any (fun b =>
          (decide (b.start ≤ currentTime) && decide (currentTime < b.stop)) ||
          (decide (b.start < currentTime + 30) && decide (currentTime + 30 ≤ b.stop))) then
        acc ++ [⟨currentTime, currentTime + 30⟩]
      else acc)
  else acc
termination_by (endTime - currentTime).toNat
decreasing_by omega

/-- `checkAvailability(calendarId, date)` of src/src/GoogleCalendarWebhook.js,
reduced to its slot scan over the day's busy times. -/
def checkAvailability (busyTimes : List Iv) (day : Int) : List Iv :=
  checkAvailabilityLoop (day * 1440 + 1020) busyTimes (day * 1440 + 480) []

/-- Rounding a nonnegative quantity up to a multiple of a positive alignment
never decreases it. -/
theorem le_jsCeilDiv_mul (m a : Int) (ha : 0 < a) : m ≤ jsCeilDiv m a * a := by
  unfold jsCeilDiv
  have h1 : (-m) / a * a ≤ -m := Int.ediv_mul_le (-m) (by omega)
  have h2 : -((-m) / a) * a = -((-m) / a * a) := by ring
  omega

/-- Every slot pushed by the inner loop starts at or after the loop's entry
candidate, fits in the window, and passes the half-open no-conflict test;
membership lemma parameterised by an arbitrary slot property. -/
theorem slotLoop_mem (align dur windowEnd : Int) (busy : List Iv) (dateStr : Int)
    (maxSlots : Nat) (lo : Int) (P : Slot → Prop)
    (hnew : ∀ c, lo ≤ c → c + dur ≤ windowEnd →
      (∀ b ∈ busy, ¬(c < b.stop ∧ b.start < c + dur)) → P ⟨dateStr, c, c + dur⟩) :
    ∀ current acc, lo ≤ current → (∀ s ∈ acc, P s) →
      ∀ s ∈ slotLoop align dur windowEnd busy dateStr maxSlots current acc, P s := by
  intro current acc
  induction current, acc using slotLoop.induct align dur windowEnd busy dateStr maxSlots with
  | case1 current acc hα =>
    intro _ hacc
    rw [slotLoop]
    simp only [if_pos hα]
    exact hacc
  | case2 current acc hα hcond ih =>
    intro hlo hacc
    rw [slotLoop]
    simp only [if_neg hα, if_pos hcond]
    apply ih (by omega)
    intro s hs
    split at hs
    case isTrue havail =>
      rcases List.mem_append.mp hs with h | h
      · exact hacc s h
      · have hsx : s = ⟨dateStr, current, current + dur⟩ := by simpa using h
        subst hsx
        apply hnew current hlo hcond.1
        intro b hb hconf
        simp only [Bool.not_eq_true', List.any_eq_false] at havail
        have := havail b hb
        simp only [Bool.and_eq_true, decide_eq_true_eq] at this
        omega
    case isFalse => exact hacc s hs
  | case3 current acc hα hcond =>
    intro _ hacc
    rw [slotLoop]
    simp only [if_neg hα, if_neg hcond]
    exact hacc

/-- The inner loop never grows the accumulator past the `maxSlots` quota. -/
theorem slotLoop_length (align dur windowEnd : Int) (busy : List Iv) (dateStr : Int)
    (maxSlots : Nat) :
    ∀ current acc, acc.length ≤ maxSlots →
      (slotLoop align dur windowEnd busy dateStr maxSlots current acc).length ≤ maxSlots := by
  intro current acc
  induction current, acc using slotLoop.induct align dur windowEnd busy dateStr maxSlots with
  | case1 current acc hα =>
    intro hacc
    rw [slotLoop]
    simpa only [if_pos hα] using hacc
  | case2 current acc hα hcond ih =>
    intro hacc
    rw [slotLoop]
    simp only [if_neg hα, if_pos hcond]
    apply ih
    split
    · simp only [List.length_append, List.length_singleton]
      omega
    · exact hacc
  | case3 current acc hα hcond =>
    intro hacc
    rw [slotLoop]
    simpa only [if_neg hα, if_neg hcond] using hacc

/-- Strict chronological order on slots: by date, then by start. -/
def slotLex (a b : Slot) : Prop := a.date < b.date ∨ (a.date = b.date ∧ a.start < b.start)

instance : DecidableRel slotLex := by
  intro a b
  unfold slotLex
  infer_instance

/-- The inner loop preserves strict `(date, start)` ordering: slots are pushed
with strictly increasing starts on a fixed date, after all accumulated slots. -/
theorem slotLoop_sorted (align dur windowEnd : Int) (busy : List Iv) (dateStr : Int)
    (maxSlots : Nat) :
    ∀ current acc, acc.Pairwise slotLex →
      (∀ s ∈ acc, s.date < dateStr ∨ (s.date = dateStr ∧ s.start < current)) →
      (slotLoop align dur windowEnd busy dateStr maxSlots current acc).Pairwise slotLex := by
  intro current acc
  induction current, acc using slotLoop.induct align dur windowEnd busy dateStr maxSlots with
  | case1 current acc hα =>
    intro hacc _
    rw [slotLoop]
    simpa only [if_pos hα] using hacc
  | case2 current acc hα hcond ih =>
    intro hacc hbound
    rw [slotLoop]
    simp only [if_neg hα, if_pos hcond]
    apply ih
    · split
      · apply List.pairwise_append.mpr
        refine ⟨hacc, List.pairwise_singleton _ _, ?_⟩
        intro a ha x hx
        have hxx : x = ⟨dateStr, current, current + dur⟩ := by simpa using hx
        subst hxx
        exact hbound a ha
      · exact hacc
    · intro s hs
      split at hs
      · rcases List.mem_append.mp hs with h | h
        · rcases hbound s h with h1 | h1
          · exact Or.inl h1
          · exact Or.inr ⟨h1.1, by omega⟩
        · have hsx : s = ⟨dateStr, current, current + dur⟩ := by simpa using h
          subst hsx
          exact Or.inr ⟨rfl, show current < current + align by omega⟩
      · rcases hbound s hs with h1 | h1
        · exact Or.inl h1
        · exact Or.inr ⟨h1.1, by omega⟩
  | case3 current acc hα hcond =>
    intro hacc _
    rw [slotLoop]
    simpa only [if_neg hα, if_neg hcond] using hacc

/-- Slots contributed by one day's scan all carry that day's date. -/
theorem slotLoop_dates (align dur windowEnd : Int) (busy : List Iv) (dateStr : Int)
    (maxSlots : Nat) (current : Int) (acc : List Slot)
    (hacc : ∀ s ∈ acc, s.date ≤ dateStr) :
    ∀ s ∈ slotLoop align dur windowEnd busy dateStr maxSlots current acc, s.date ≤ dateStr := by
  refine slotLoop_mem align dur windowEnd busy dateStr maxSlots current
    (fun s => s.date ≤ dateStr) ?_ current acc le_rfl hacc
  intro c _ _ _
  exact le_rfl

/-- The day loop never grows the slot list past the `maxSlots` quota. -/
theorem multiDayLoop_length (startDay daysToCheck : Int) (wp : WindowParams)
    (align now : Int) (maxSlots : Nat) (busyOf : Int → List Iv) :
    ∀ dayOffset acc, acc.length ≤ maxSlots →
      (multiDayLoop startDay daysToCheck wp align now maxSlots busyOf dayOffset acc).length
        ≤ maxSlots := by
  intro dayOffset acc
  induction dayOffset, acc using
      multiDayLoop.induct startDay daysToCheck wp align now maxSlots busyOf with
  | case1 dayOffset acc hcond hskip ih =>
    intro hacc
    rw [multiDayLoop]
    simp only [if_pos hcond, if_pos hskip]
    exact ih hacc
  | case2 dayOffset acc hcond hskip ih =>
    intro hacc
    rw [multiDayLoop]
    simp only [if_pos hcond, if_neg hskip]
    exact ih (slotLoop_length _ _ _ _ _ _ _ _ hacc)
  | case3 dayOffset acc hcond =>
    intro hacc
    rw [multiDayLoop]
    simpa only [if_neg hcond] using hacc

/-- The day loop keeps the slot list strictly ordered by `(date, start)`:
all previously accumulated slots date strictly before the current day. -/
theorem multiDayLoop_sorted (startDay daysToCheck : Int) (wp : WindowParams)
    (align now : Int) (maxSlots : Nat) (busyOf : Int → List Iv) :
    ∀ dayOffset acc, acc.Pairwise slotLex →
      (∀ s ∈ acc, s.date < startDay + dayOffset) →
      (multiDayLoop startDay daysToCheck wp align now maxSlots busyOf dayOffset acc).Pairwise
        slotLex := by
  intro dayOffset acc
  induction dayOffset, acc using
      multiDayLoop.induct startDay daysToCheck wp align now maxSlots busyOf with
  | case1 dayOffset acc hcond hskip ih =>
    intro hacc hdates
    rw [multiDayLoop]
    simp only [if_pos hcond, if_pos hskip]
    exact ih hacc (fun s hs => lt_trans (hdates s hs) (by omega))
  | case2 dayOffset acc hcond hskip ih =>
    intro hacc hdates
    rw [multiDayLoop]
    simp only [if_pos hcond, if_neg hskip]
    apply ih
    · exact slotLoop_sorted _ _ _ _ _ _ _ _ hacc
        (fun s hs => Or.inl (hdates s hs))
    · intro s hs
      have := slotLoop_dates _ _ _ _ _ _ _ _
        (fun s hs => le_of_lt (hdates s hs)) s hs
      omega
  | case3 dayOffset acc hcond =>
    intro hacc _
    rw [multiDayLoop]
    simpa only [if_neg hcond] using hacc

/-- Every slot the day loop appends starts at or after `now`, spans exactly
the requested duration, and passes the half-open no-conflict test against the
busy intervals fetched for its own day. -/
theorem multiDayLoop_mem (startDay daysToCheck : Int) (wp : WindowParams)
    (align now : Int) (maxSlots : Nat) (busyOf : Int → List Iv) (ha : 0 < align) :
    ∀ dayOffset acc,
      (∀ s ∈ acc, now ≤ s.start ∧ s.stop = s.start + wp.slot_duration_minutes ∧
        ∀ b ∈ busyOf s.date, ¬(s.start < b.stop ∧ b.start < s.stop)) →
      ∀ s ∈ multiDayLoop startDay daysToCheck wp align now maxSlots busyOf dayOffset acc,
        now ≤ s.start ∧ s.stop = s.start + wp.slot_duration_minutes ∧
        ∀ b ∈ busyOf s.date, ¬(s.start < b.stop ∧ b.start < s.stop) := by
  intro dayOffset acc
  induction dayOffset, acc using
      multiDayLoop.induct startDay daysToCheck wp align now maxSlots busyOf with
  | case1 dayOffset acc hcond hskip ih =>
    intro hacc
    rw [multiDayLoop]
    simp only [if_pos hcond, if_pos hskip]
    exact ih hacc
  | case2 dayOffset acc hcond hskip ih =>
    intro hacc
    rw [multiDayLoop]
    simp only [if_pos hcond, if_neg hskip]
    apply ih
    refine slotLoop_mem _ _ _ _ _ _ _ _ ?_ _ _ le_rfl hacc
    intro c hc hwin hfree
    have hnow : now ≤ c := by
      split at hc
      case isTrue hws =>
        have := le_jsCeilDiv_mul (now - ((startDay + dayOffset) * 1440 + wp.start_hour * 60))
          align ha
        omega
      case isFalse hws => omega
    exact ⟨hnow, rfl, hfree⟩
  | case3 dayOffset acc hcond =>
    intro hacc
    rw [multiDayLoop]
    simpa only [if_neg hcond] using hacc

/-- C1 (amended): for `findAvailableSlotsMultiDay` with a positive alignment
grid, every returned slot starts at or after the current time (a slot may
start exactly at `now` when `now` falls on the alignment grid), spans exactly
the requested duration, and its interval `[start, start+duration)` passes the
half-open no-conflict test against every busy interval fetched for its day:
`¬(start < b.end ∧ b.start < start + duration)`.  Hence no returned slot
intersects any busy interval of its day and no returned slot starts before
`now`.  (The `checkAvailability` variant uses a different overlap test and
violates the no-intersection property; see the counterexample.) -/
theorem findAvailableSlotsMultiDay_sound (startDay daysToCheck : Int)
    (wp : WindowParams) (align now : Int) (maxSlots : Nat) (busyOf : Int → List Iv)
    (ha : 0 < align) :
    ∀ s ∈ findAvailableSlotsMultiDay startDay daysToCheck wp align now maxSlots busyOf,
      now ≤ s.start ∧ s.stop = s.start + wp.slot_duration_minutes ∧
      ∀ b ∈ busyOf s.date, ¬(s.start < b.stop ∧ b.start < s.stop) :=
  multiDayLoop_mem startDay daysToCheck wp align now maxSlots busyOf ha 0 [] (by simp)

/-- Witness for the C1 theorem at a concrete instance: one scanned day with
window 9:00-17:00, hour slots on a 15-minute grid, an empty calendar and
`now` at 9:00 (minute 540 of day 0); its first returned slot is 9:00-10:00. -/
theorem findAvailableSlotsMultiDay_sound_witness :
    (0 : Int) < 15 ∧ (540 : Int) ≤ 540 :=
  ⟨by decide,
    (findAvailableSlotsMultiDay_sound 0 1 ⟨9, 17, 60⟩ 15 540 4 (fun _ => []) (by decide)
      ⟨0, 540, 600⟩
      (by simp [findAvailableSlotsMultiDay, multiDayLoop, slotLoop, jsCeilDiv])).1⟩

/-- C1 counterexample.  First conjunct pair: `checkAvailability`
(src/src/GoogleCalendarWebhook.js) accepts the 8:00-8:30 slot of day 0
(minutes 480-510) although the busy interval 8:10-8:20 (minutes 490-500) lies
strictly inside it — its overlap test misses contained busy intervals, so the
accepted slot intersects a busy interval under the half-open rule
(480 < 500 and 490 < 510).  Last conjunct: with `now = 540` exactly at the
9:00 window start on the grid, `findAvailableSlotsMultiDay` returns a slot
starting exactly at `now`, not strictly after it. -/
theorem availability_filter_counterexample :
    (checkAvailability [⟨490, 500⟩] 0).head? = some ⟨480, 510⟩ ∧
    ((480 : Int) < 500 ∧ (490 : Int) < 510) ∧
    (findAvailableSlotsMultiDay 0 1 ⟨9, 17, 60⟩ 15 540 4 (fun _ => [])).head?
      = some ⟨0, 540, 600⟩ := by
  refine ⟨?_, by decide, ?_⟩
  · simp [checkAvailability, checkAvailabilityLoop]
  · simp [findAvailableSlotsMultiDay, multiDayLoop, slotLoop, jsCeilDiv]

/-- C6: one multi-day scan returns at most `maxSlots` slots — the
accumulation stops as soon as the count reaches the quota — and the returned
list is strictly ordered ascending by `(date, start)`. -/
theorem findAvailableSlotsMultiDay_quota_ordered (startDay daysToCheck : Int)
    (wp : WindowParams) (align now : Int) (maxSlots : Nat) (busyOf : Int → List Iv) :
    (findAvailableSlotsMultiDay startDay daysToCheck wp align now maxSlots busyOf).length
      ≤ maxSlots ∧
    (findAvailableSlotsMultiDay startDay daysToCheck wp align now maxSlots busyOf).Pairwise
      slotLex :=
  ⟨multiDayLoop_length startDay daysToCheck wp align now maxSlots busyOf 0 [] (by simp),
   multiDayLoop_sorted startDay daysToCheck wp align now maxSlots busyOf 0 [] (by simp)
     (by simp)⟩

/-- Shift a busy interval forward by `k` whole days. -/
def shiftIv (k : Int) (iv : Iv) : Iv := ⟨iv.start + 1440 * k, iv.stop + 1440 * k⟩

/-- Shift a slot forward by `k` whole days. -/
def shiftSlot (k : Int) (s : Slot) : Slot := ⟨s.date + k, s.start + 1440 * k, s.stop + 1440 * k⟩

/-- ISO weekday of a day index: day 0 (1970-01-01) was a Thursday; `0` is
Sunday, `6` is Saturday. -/
def weekday (d : Int) : Int := (d + 4) % 7

/-- The inner slot loop commutes with shifting all instants by whole days. -/
theorem slotLoop_shift (align dur windowEnd : Int) (busy : List Iv) (dateStr : Int)
    (maxSlots : Nat) (k : Int) :
    ∀ current acc,
      slotLoop align dur (windowEnd + 1440 * k) (busy.map (shiftIv k)) (dateStr + k)
        maxSlots (current + 1440 * k) (acc.map (shiftSlot k))
      = (slotLoop align dur windowEnd busy dateStr maxSlots current acc).map
          (shiftSlot k) := by
  intro current acc
  induction current, acc using slotLoop.induct align dur windowEnd busy dateStr maxSlots with
  | case1 current acc hα =>
    conv_lhs => rw [slotLoop]
    conv_rhs => rw [slotLoop]
    rw [if_pos hα, if_pos hα]
  | case2 current acc hα hcond ih =>
    have hcond2 : current + 1440 * k + dur ≤ windowEnd + 1440 * k ∧
        (acc.map (shiftSlot k)).length < maxSlots :=
      ⟨by omega, by simpa using hcond.2⟩
    conv_lhs => rw [slotLoop]
    conv_rhs => rw [slotLoop]
    rw [if_neg hα, if_pos hcond2, if_neg hα, if_pos hcond]
    have havail : ((busy.map (shiftIv k)).any fun b =>
        decide (current + 1440 * k < b.stop) && decide (b.start < current + 1440 * k + dur))
        = (busy.any fun b => decide (current < b.stop) && decide (b.start < current + dur)) := by
      rw [List.any_map]
      apply congrArg
      funext b
      simp only [Function.comp, shiftIv]
      congr 1
      · exact decide_eq_decide.mpr (by omega)
      · exact decide_eq_decide.mpr (by omega)
    rw [havail]
    have hslot : (⟨dateStr + k, current + 1440 * k, current + 1440 * k + dur⟩ : Slot)
        = shiftSlot k ⟨dateStr, current, current + dur⟩ := by
      simp only [shiftSlot, Slot.mk.injEq, true_and]
      ring
    have harg : (if (!busy.any fun b =>
          decide (current < b.stop) && decide (b.start < current + dur)) = true then
        acc.map (shiftSlot k) ++ [⟨dateStr + k, current + 1440 * k, current + 1440 * k + dur⟩]
      else acc.map (shiftSlot k))
        = ((if (!busy.any fun b =>
            decide (current < b.stop) && decide (b.start < current + dur)) = true then
          acc ++ [⟨dateStr, current, current + dur⟩]
        else acc).map (shiftSlot k)) := by
      split
      · rw [List.map_append, List.map_singleton, hslot]
      · rfl
    rw [harg, show current + 1440 * k + align = current + align + 1440 * k from by ring]
    exact ih
  | case3 current acc hα hcond =>
    have hcond2 : ¬(current + 1440 * k + dur ≤ windowEnd + 1440 * k ∧
        (acc.map (shiftSlot k)).length < maxSlots) := by
      intro h
      exact hcond ⟨by omega, by simpa using h.2⟩
    conv_lhs => rw [slotLoop]
    conv_rhs => rw [slotLoop]
    rw [if_neg hα, if_neg hcond2, if_neg hα, if_neg hcond]

/-- The day loop commutes with shifting the start date, the clock, and the
busy data by `k` whole days: its behaviour depends only on day differences,
never on which weekday a date falls on. -/
theorem multiDayLoop_shift (startDay daysToCheck : Int) (wp : WindowParams)
    (align now : Int) (maxSlots : Nat) (busyOf : Int → List Iv) (k : Int) :
    ∀ dayOffset acc,
      multiDayLoop (startDay + k) daysToCheck wp align (now + 1440 * k) maxSlots
        (fun d => (busyOf (d - k)).map (shiftIv k)) dayOffset (acc.map (shiftSlot k))
      = (multiDayLoop startDay daysToCheck wp align now maxSlots busyOf dayOffset acc).map
          (shiftSlot k) := by
  intro dayOffset acc
  induction dayOffset, acc using
      multiDayLoop.induct startDay daysToCheck wp align now maxSlots busyOf with
  | case1 dayOffset acc hcond hskip ih =>
    have hcond2 : dayOffset < daysToCheck ∧ (acc.map (shiftSlot k)).length < maxSlots :=
      ⟨hcond.1, by simpa using hcond.2⟩
    have hskip2 : (startDay + k + dayOffset) * 1440 + wp.end_hour * 60 ≤ now + 1440 * k := by
      omega
    conv_lhs => rw [multiDayLoop]
    conv_rhs => rw [multiDayLoop]
    rw [if_pos hcond2, if_pos hskip2, if_pos hcond, if_pos hskip]
    exact ih
  | case2 dayOffset acc hcond hskip ih =>
    have hcond2 : dayOffset < daysToCheck ∧ (acc.map (shiftSlot k)).length < maxSlots :=
      ⟨hcond.1, by simpa using hcond.2⟩
    have hskip2 : ¬((startDay + k + dayOffset) * 1440 + wp.end_hour * 60 ≤ now + 1440 * k) := by
      omega
    conv_lhs => rw [multiDayLoop]
    conv_rhs => rw [multiDayLoop]
    rw [if_pos hcond2, if_neg hskip2, if_pos hcond, if_neg hskip]
    have hcur : (if (startDay + k + dayOffset) * 1440 + wp.start_hour * 60 ≤ now + 1440 * k then
          (startDay + k + dayOffset) * 1440 + wp.start_hour * 60 +
            jsCeilDiv (now + 1440 * k - ((startDay + k + dayOffset) * 1440 + wp.start_hour * 60))
              align * align
        else (startDay + k + dayOffset) * 1440 + wp.start_hour * 60)
        = (if (startDay + dayOffset) * 1440 + wp.start_hour * 60 ≤ now then
            (startDay + dayOffset) * 1440 + wp.start_hour * 60 +
              jsCeilDiv (now - ((startDay + dayOffset) * 1440 + wp.start_hour * 60)) align * align
          else (startDay + dayOffset) * 1440 + wp.start_hour * 60) + 1440 * k := by
      have harg : now + 1440 * k - ((startDay + k + dayOffset) * 1440 + wp.start_hour * 60)
          = now - ((startDay + dayOffset) * 1440 + wp.start_hour * 60) := by ring
      rw [harg]
      by_cases h : (startDay + dayOffset) * 1440 + wp.start_hour * 60 ≤ now
      · rw [if_pos (show (startDay + k + dayOffset) * 1440 + wp.start_hour * 60
            ≤ now + 1440 * k by omega), if_pos h]
        ring
      · rw [if_neg (show ¬((startDay + k + dayOffset) * 1440 + wp.start_hour * 60
            ≤ now + 1440 * k) by omega), if_neg h]
        ring
    rw [hcur]
    rw [show (startDay + k + dayOffset) * 1440 + wp.end_hour * 60
        = ((startDay + dayOffset) * 1440 + wp.end_hour * 60) + 1440 * k from by ring]
    rw [show startDay + k + dayOffset - k = startDay + dayOffset from by ring]
    rw [show startDay + k + dayOffset = startDay + dayOffset + k from by ring]
    rw [slotLoop_shift]
    exact ih
  | case3 dayOffset acc hcond =>
    have hcond2 : ¬(dayOffset < daysToCheck ∧ (acc.map (shiftSlot k)).length < maxSlots) := by
      intro h
      exact hcond ⟨h.1, by simpa using h.2⟩
    conv_lhs => rw [multiDayLoop]
    conv_rhs => rw [multiDayLoop]
    rw [if_neg hcond2, if_neg hcond]

/-- C7 (amended): `findAvailableSlotsMultiDay` applies no weekend exclusion.
Its output is equivariant under shifting the start date, the current time and
the busy data by any number `k` of whole days, so the scan cannot treat any
weekday specially: there is no `allow_weekends` policy field in the code and
days are scanned uniformly.  (The counterexample exhibits returned slots on a
Saturday.) -/
theorem findAvailableSlotsMultiDay_shift_equivariant (startDay daysToCheck : Int)
    (wp : WindowParams) (align now : Int) (maxSlots : Nat) (busyOf : Int → List Iv)
    (k : Int) :
    findAvailableSlotsMultiDay (startDay + k) daysToCheck wp align (now + 1440 * k) maxSlots
      (fun d => (busyOf (d - k)).map (shiftIv k))
    = (findAvailableSlotsMultiDay startDay daysToCheck wp align now maxSlots busyOf).map
        (shiftSlot k) :=
  multiDayLoop_shift startDay daysToCheck wp align now maxSlots busyOf k 0 []

/-- C7 counterexample: day 2 (1970-01-03) is a Saturday, yet a one-day scan
starting on it with a free calendar returns slots dated to that Saturday
(the first being 9:00-10:00), so slots do fall on weekend days and no day is
skipped for its weekday. -/
theorem weekend_slots_counterexample :
    weekday 2 = 6 ∧
    (findAvailableSlotsMultiDay 2 1 ⟨9, 17, 60⟩ 15 0 4 (fun _ => [])).head?
      = some ⟨2, 3420, 3480⟩ := by
  refine ⟨by decide, ?_⟩
  simp [findAvailableSlotsMultiDay, multiDayLoop, slotLoop, jsCeilDiv]

/-- `roundUpToAlignment(dt, alignmentMinutes)` of src/unnamed/part_002 lines
125-131: reads the minute-of-hour field `dt.minute` (here `dt % 60` for a
whole-minute instant, via Euclidean remainder, matching luxon's 0-59 field),
takes its remainder modulo the alignment, and when it is nonzero adds the
complement.  (For `align <= 0` JS would produce an invalid date through a NaN
remainder; the claims concern positive alignments.) -/
def roundUpToAlignment (dt align : Int) : Int :=
  if (dt % 60) % align = 0 then dt else dt + (align - (dt % 60) % align)

/-- Scan loop of `computeFreeSlotsLuxon` (src/unnamed/part_002 lines 145-164):
while `candidate + slotDur <= windowEnd`, keep the candidate unless it
conflicts with a busy interval under the half-open rule
`candidate < iv.end && iv.start < candidateEnd`, then advance by the
alignment grid (`candidateEnd` is `candidate + dur`).  For `align <= 0` the
JS loop would not advance; the model returns the accumulator there. -/
def computeFreeSlotsLoop (windowEnd : Int) (busy : List Iv) (dur align : Int)
    (candidate : Int) (acc : List Iv) : List Iv :=
  if align ≤ 0 then acc
  else if candidate + dur ≤ windowEnd then
    computeFreeSlotsLoop windowEnd busy dur align (candidate + align)
      (if busy.any (fun iv => decide (candidate < iv.stop) && decide (iv.start < candidate + dur)) then
        acc
      else acc ++ [⟨candidate, candidate + dur⟩])
  else acc
termination_by (windowEnd - dur - candidate + 1).toNat
decreasing_by omega

/-- `computeFreeSlotsLuxon(windowStartDT, windowEndDT, busyIntervals,
slotDurationMinutes, alignmentMinutes)` of src/unnamed/part_002 lines
138-167: candidates start at the rounded-up window start. -/
def computeFreeSlotsLuxon (windowStart windowEnd : Int) (busy : List Iv)
    (dur align : Int) : List Iv :=
  computeFreeSlotsLoop windowEnd busy dur align (roundUpToAlignment windowStart align) []

/-- Candidate grid exactly as the spec words it: a first candidate, each
subsequent candidate exactly `align` later, stopping at the first candidate
with `candidate + dur > windowEnd`.  Used to compare the code's generation
against the spec's description. -/
def specCandidateGrid (first align dur windowEnd : Int) : List Int :=
  if align ≤ 0 then []
  else if first + dur ≤ windowEnd then
    first :: specCandidateGrid (first + align) align dur windowEnd
  else []
termination_by (windowEnd - dur - first + 1).toNat
decreasing_by omega

/-- On a free calendar the scan loop emits exactly the candidate grid. -/
theorem computeFreeSlotsLoop_free (windowEnd : Int) (dur align : Int) :
    ∀ candidate acc,
      computeFreeSlotsLoop windowEnd [] dur align candidate acc
        = acc ++ (specCandidateGrid candidate align dur windowEnd).map
            (fun c => (⟨c, c + dur⟩ : Iv)) := by
  intro candidate acc
  induction candidate, acc using computeFreeSlotsLoop.induct windowEnd [] dur align with
  | case1 candidate acc hα =>
    rw [computeFreeSlotsLoop, specCandidateGrid]
    simp [hα]
  | case2 candidate acc hα hwin ih =>
    rw [computeFreeSlotsLoop, specCandidateGrid]
    rw [if_neg hα, if_pos hwin, if_neg hα, if_pos hwin]
    simpa using ih
  | case3 candidate acc hα hwin =>
    rw [computeFreeSlotsLoop, specCandidateGrid]
    rw [if_neg hα, if_neg hwin, if_neg hα, if_neg hwin]
    simp

/-- C5 (amended): for every window, duration and positive alignment, the
candidate sequence of `computeFreeSlotsLuxon` (observed on a free calendar)
starts at `roundUpToAlignment windowStart align`, advances by exactly
`align` minutes, and stops at the first candidate with
`candidate + dur > windowEnd`; and the first candidate is the
`windowStart` rounded up to the next multiple of `align` (no-op when already
aligned) whenever `align` divides 60 — the rounding acts on the minute-of-hour
field, which agrees with absolute multiples exactly in that case. -/
theorem computeFreeSlotsLuxon_grid (windowStart windowEnd dur align : Int)
    (ha : 0 < align) :
    (computeFreeSlotsLuxon windowStart windowEnd [] dur align
      = (specCandidateGrid (roundUpToAlignment windowStart align) align dur windowEnd).map
          (fun c => (⟨c, c + dur⟩ : Iv))) ∧
    (align ∣ 60 →
      align ∣ roundUpToAlignment windowStart align ∧
      windowStart ≤ roundUpToAlignment windowStart align ∧
      roundUpToAlignment windowStart align < windowStart + align) := by
  constructor
  · unfold computeFreeSlotsLuxon
    simpa using computeFreeSlotsLoop_free windowEnd dur align
      (roundUpToAlignment windowStart align) []
  · intro hdvd
    have hmod : (windowStart % 60) % align = windowStart % align := by
      rcases hdvd with ⟨c, hc⟩
      conv_lhs => rw [show (60 : Int) = align * c from hc]
      rw [Int.emod_emod_of_dvd]
      exact Dvd.intro c (by ring)
    unfold roundUpToAlignment
    rw [hmod]
    have h0 : 0 ≤ windowStart % align := Int.emod_nonneg windowStart (by omega)
    have h1 : windowStart % align < align := Int.emod_lt_of_pos windowStart ha
    have h2 : align ∣ windowStart - windowStart % align := by
      have hdef := Int.emod_def windowStart align
      exact ⟨windowStart / align, by omega⟩
    split
    case isTrue hz =>
      refine ⟨?_, le_rfl, by omega⟩
      have : align ∣ windowStart - 0 := by rw [← hz]; exact h2
      simpa using this
    case isFalse hz =>
      refine ⟨?_, by omega, by omega⟩
      have : windowStart + (align - windowStart % align)
          = (windowStart - windowStart % align) + align := by ring
      rw [this]
      exact dvd_add h2 dvd_rfl

/-- Witness for the C5 theorem: alignment 15 divides 60; window start at
minute 100 (1:40) rounds up to 105, the unique multiple of 15 in [100, 115). -/
theorem computeFreeSlotsLuxon_grid_witness :
    (15 : Int) ∣ roundUpToAlignment 100 15 ∧
    (100 : Int) ≤ roundUpToAlignment 100 15 ∧
    roundUpToAlignment 100 15 < 100 + 15 :=
  (computeFreeSlotsLuxon_grid 100 300 30 15 (by decide)).2 (by decide)

/-- C5 counterexample: with `alignment_minutes = 45` (which does not divide
60) and `windowStart` at minute 110 (1:50), the first generated candidate is
minute 150 (2:30): `roundUpToAlignment` rounds the minute-of-hour field
(50 -> +40), while the next multiple of 45 at or after 110 is 135 — so the
first candidate is neither that multiple nor 45-aligned at all. -/
theorem candidate_alignment_counterexample :
    (computeFreeSlotsLuxon 110 300 [] 30 45).head? = some ⟨150, 180⟩ ∧
    ((135 : Int) % 45 = 0 ∧ (110 : Int) ≤ 135 ∧ (135 : Int) < 110 + 45 ∧
      (150 : Int) ≠ 135 ∧ ¬((150 : Int) % 45 = 0)) := by
  refine ⟨?_, by decide⟩
  simp [computeFreeSlotsLuxon, roundUpToAlignment, computeFreeSlotsLoop]

/-- A luxon `Interval` as constructed and consumed by `mergeBusyIntervals`
(src/calendar-operations.js lines 99-128).  An invalid interval (luxon's
`Interval.invalid`, produced when an endpoint is absent or the end precedes
the start) carries no endpoints; the `start`/`end` getters then return
`null`, and the internal comparisons of `overlaps`/`abutsStart` see absent
values (NaN semantics: every comparison false). -/
structure LuxonInterval where
  s : Option Int
  e : Option Int
deriving DecidableEq, Repr

/-- luxon `Interval.fromDateTimes(start, end)`: invalid when either endpoint
is missing or when `end < start`; a zero-length interval (`end = start`) is
valid. -/
def intervalFromDateTimes (s e : Option Int) : LuxonInterval :=
  match s, e with
  | some sv, some ev => if ev < sv then ⟨none, none⟩ else ⟨some sv, some ev⟩
  | _, _ => ⟨none, none⟩

/-- luxon `Interval.overlaps(other)`: `this.e > other.s && this.s < other.e`
on the internal endpoints; comparisons with an absent endpoint are false. -/
def luxOverlaps (a b : LuxonInterval) : Bool :=
  (match a.e, b.s with
   | some ae, some bs => decide (bs < ae)
   | _, _ => false) &&
  (match a.s, b.e with
   | some av, some be => decide (av < be)
   | _, _ => false)

/-- luxon `Interval.abutsStart(other)`: `+this.e === +other.s`; `NaN === NaN`
is false, so invalid endpoints never abut. -/
def luxAbutsStart (a b : LuxonInterval) : Bool :=
  match a.e, b.s with
  | some ae, some bs => decide (ae = bs)
  | _, _ => false

/-- JS `ToNumber` coercion of a getter value in a relational comparison or in
the sort comparator `a.start - b.start`: `null` coerces to `0`. -/
def jsKey (x : Option Int) : Int := x.getD 0

/-- The fold of `mergeBusyIntervals` (src/calendar-operations.js lines
115-127): extend `cur` when `cur.overlaps(next) || cur.abutsStart(next) ||
next.start <= cur.end`, rebuilding it via `Interval.fromDateTimes(cur.start,
cur.end > next.end ? cur.end : next.end)`; otherwise emit `cur`. -/
def mergeBusyLoop (cur : LuxonInterval) (rest : List LuxonInterval) : List LuxonInterval :=
  match rest with
  | [] => [cur]
  | next :: rest' =>
    if luxOverlaps cur next || luxAbutsStart cur next ||
        decide (jsKey next.s ≤ jsKey cur.e) then
      mergeBusyLoop (intervalFromDateTimes cur.s
        (if jsKey next.e < jsKey cur.e then cur.e else next.e)) rest'
    else
      mergeBusyLoop next rest' |>.cons cur

/-- A Google Calendar event as consumed by `mergeBusyIntervals`:
`startField` models `ev.start?.dateTime || ev.start?.date` (`none` when both
are missing) composed with the `DateTime.fromISO` parse oracle (`some none`
when the string does not parse, `some (some t)` when it parses to instant
`t`); likewise `endField`. -/
structure GEvent where
  startField : Option (Option Int)
  endField : Option (Option Int)
deriving DecidableEq, Repr

/-- The per-event step of `mergeBusyIntervals` lines 100-110: `null` (dropped
by `.filter(Boolean)`) when an endpoint is missing (`if (!s || !e) return
null`) or does not parse (`if (!start.isValid || !end.isValid) return null`),
otherwise the constructed `Interval`. -/
def parseEventInterval (ev : GEvent) : Option LuxonInterval :=
  match ev.startField, ev.endField with
  | some sRaw, some eRaw =>
    match sRaw, eRaw with
    | some sv, some ev2 => some (intervalFromDateTimes (some sv) (some ev2))
    | _, _ => none
  | _, _ => none

/-- Comparator of `.sort((a, b) => a.start - b.start)` over parsed intervals
(getter values, `null` coercing to 0), as a stable sort relation. -/
def luxLe (a b : LuxonInterval) : Bool := decide (jsKey a.s ≤ jsKey b.s)

/-- `mergeBusyIntervals(events, tz)` of src/calendar-operations.js lines
99-128: map events through parsing, drop the `null`s, sort by start, fold. -/
def mergeBusyIntervals (events : List GEvent) : List LuxonInterval :=
  match (events.filterMap parseEventInterval).mergeSort luxLe with
  | [] => []
  | first :: rest => mergeBusyLoop first rest

/-- C8 (amended): an event with a missing endpoint or an endpoint that fails
to parse contributes nothing to `mergeBusyIntervals`: it is dropped and the
remaining events are processed unchanged. -/
theorem mergeBusyIntervals_drops_invalid (ev : GEvent) (events : List GEvent)
    (h : ev.startField = none ∨ ev.endField = none ∨
      ev.startField = some none ∨ ev.endField = some none) :
    mergeBusyIntervals (ev :: events) = mergeBusyIntervals events := by
  have hnone : parseEventInterval ev = none := by
    obtain ⟨sf, ef⟩ := ev
    unfold parseEventInterval
    rcases sf with _ | sv
    · rfl
    · rcases ef with _ | ev2
      · rfl
      · rcases sv with _ | sv2
        · rfl
        · rcases ev2 with _ | ev3
          · rfl
          · simp at h
  unfold mergeBusyIntervals
  rw [List.filterMap_cons_none hnone]

/-- Witness for the C8 theorem: an event whose start is missing is dropped
and the remaining event is still processed. -/
theorem mergeBusyIntervals_drops_invalid_witness :
    ((⟨none, some (some 10)⟩ : GEvent).startField = none ∨
      (⟨none, some (some 10)⟩ : GEvent).endField = none ∨
      (⟨none, some (some 10)⟩ : GEvent).startField = some none ∨
      (⟨none, some (some 10)⟩ : GEvent).endField = some none) ∧
    mergeBusyIntervals [⟨none, some (some 10)⟩, ⟨some (some 3), some (some 9)⟩]
      = mergeBusyIntervals [⟨some (some 3), some (some 9)⟩] :=
  ⟨Or.inl rfl,
    mergeBusyIntervals_drops_invalid ⟨none, some (some 10)⟩
      [⟨some (some 3), some (some 9)⟩] (Or.inl rfl)⟩

/-- C8 counterexample: a parseable pair with `end = start` (minute 5 to
minute 5) is not dropped — `Interval.fromDateTimes` deems a zero-length
interval valid and `.filter(Boolean)` keeps the object — so it contributes a
(degenerate) interval to the merged output, contradicting the claim that
every pair with `end <= start` is dropped by the merge step. -/
theorem zero_length_pair_retained_counterexample :
    mergeBusyIntervals [⟨some (some 5), some (some 5)⟩] = [⟨some 5, some 5⟩] ∧
    mergeBusyIntervals [⟨some (some 5), some (some 5)⟩] ≠ [] := by
  have h : mergeBusyIntervals [⟨some (some 5), some (some 5)⟩] = [⟨some 5, some 5⟩] := by
    simp [mergeBusyIntervals, parseEventInterval, intervalFromDateTimes, mergeBusyLoop,
      List.mergeSort_singleton]
  exact ⟨h, by rw [h]; decide⟩

/-- Day index (`toISODate`) of a wall-clock minute value: floor division. -/
def dayOf (w : Int) : Int := w / 1440

/-- 24-hour hour-of-day field of a wall-clock minute value. -/
def hour24Of (w : Int) : Int := (w / 60) % 24

/-- Minute-of-hour field of a wall-clock minute value. -/
def minuteOf (w : Int) : Int := w % 60

/-- luxon format token `h`: 12-hour clock hour (1-12). -/
def hour12Of (h24 : Int) : Int := if h24 % 12 = 0 then 12 else h24 % 12

/-- luxon format token `a`: true for PM (hour 12-23). -/
def isPMOf (h24 : Int) : Bool := decide (12 ≤ h24)

/-- A clock time string as consumed by the `/book` handler of
src/GoogleCalendarWebhook.js: hour and minute components plus the meridiem
marker (`some true` = contains "PM", `some false` = contains "AM", `none` =
bare 24-hour "HH:MM"). -/
structure TimeField where
  hour : Int
  minute : Int
  marker : Option Bool
deriving DecidableEq, Repr

/-- `parseTime12Hour(timeStr, dateStr, timezone)` of
src/GoogleCalendarWebhook.js lines 530-567: convert to 24-hour form (`PM`
and hour not 12 adds 12; hour 12 without `PM` becomes 0) and build the
instant `DateTime.fromISO(date + "T" + HH:MM, { zone })` — in the
fixed-offset model, wall clock minus the zone offset `off`. -/
def parseTime12Hour (tf : TimeField) (dateStr off : Int) : Int :=
  if tf.marker = some true ∧ tf.hour ≠ 12 then
    dateStr * 1440 + (tf.hour + 12) * 60 + tf.minute - off
  else if ¬tf.marker = some true ∧ tf.hour = 12 then
    dateStr * 1440 + tf.minute - off
  else
    dateStr * 1440 + tf.hour * 60 + tf.minute - off

/-- The `h:mm a` rendering (`current.toFormat('h:mm a')`, lines 324) of an
instant `t` in the zone with offset `off`: the display projection of a slot
endpoint shown to the caller. -/
def displayTime12 (t off : Int) : TimeField :=
  ⟨hour12Of (hour24Of (t + off)), minuteOf (t + off), some (isPMOf (hour24Of (t + off)))⟩

/-- Parsing back the displayed 12-hour time with the same date and the same
zone reproduces the instant exactly. -/
theorem parseTime12Hour_displayTime12 (t off : Int) :
    parseTime12Hour (displayTime12 t off) (dayOf (t + off)) off = t := by
  unfold parseTime12Hour displayTime12 hour12Of hour24Of minuteOf isPMOf dayOf
  simp only [Option.some.injEq, decide_eq_true_eq]
  split_ifs <;> omega

/-- C9 (amended): the round-trip holds when the display timezone equals the
resource timezone — the only projection the main webhook performs: a slot's
endpoints rendered with `toFormat('h:mm a')` in the resource zone and
re-parsed by `parseTime12Hour` with the slot's date in the same zone
reproduce the original canonical instants exactly, provided both endpoints
fall on the same calendar day in that zone (the booking request carries a
single `date`).  For an arbitrary display timezone the round-trip fails; see
the counterexample. -/
theorem display_roundtrip_resource_zone (s e off : Int)
    (hday : dayOf (e + off) = dayOf (s + off)) :
    parseTime12Hour (displayTime12 s off) (dayOf (s + off)) off = s ∧
    parseTime12Hour (displayTime12 e off) (dayOf (s + off)) off = e := by
  refine ⟨parseTime12Hour_displayTime12 s off, ?_⟩
  rw [← hday]
  exact parseTime12Hour_displayTime12 e off

/-- Witness for the C9 theorem: the slot 10:00-11:00 Eastern (instants
600/660 with offset -300) displays as "5:00 AM"/"6:00 AM" wall clock of day
0 and parses back to 600/660. -/
theorem display_roundtrip_resource_zone_witness :
    dayOf (660 + -300) = dayOf (600 + -300) ∧
    parseTime12Hour (displayTime12 600 (-300)) (dayOf (600 + -300)) (-300) = 600 :=
  ⟨by decide, (display_roundtrip_resource_zone 600 660 (-300) (by decide)).1⟩

/-- The `start_iso` display of the `/availability` slot loop of
src/unnamed/part_001 lines 208-235: slots are computed in Eastern time but
rendered as UTC ISO strings (`slotStartEastern.toUTC().toISO()`), so the
wall clock the caller sees is the UTC wall clock of the instant — here its
(day, hour, minute) components. -/
def part001SlotStartIso (t : Int) : Int × Int × Int := (dayOf t, hour24Of t, minuteOf t)

/-- The `/book` handler of src/unnamed/part_001 lines 295-313: the caller's
`date` and `start_time` (HH:MM) are interpreted as an Eastern wall clock
(`America/New_York`, standard offset -300 in the fixed-offset model), giving
the instant wall + 300. -/
def part001BookStart (dateStr sh sm : Int) : Int := dateStr * 1440 + sh * 60 + sm + 300

/-- C9 counterexample: the canonical instant 0 is displayed to the caller as
UTC day 0, 00:00 (`part001SlotStartIso`), but reversing the caller's
acceptance of exactly that displayed slot through the `/book` handler
re-interprets 00:00 of day 0 as Eastern wall clock and yields instant 300,
not 0: `reverse(project(slot, UTC)) != slot`, so the round-trip fails for a
display timezone different from the resource timezone. -/
theorem utc_display_eastern_book_counterexample :
    part001SlotStartIso 0 = (0, 0, 0) ∧ part001BookStart 0 0 0 = 300 ∧
    part001BookStart 0 0 0 ≠ 0 := by decide

/-- Outcome of the POST `/book` handler of src/GoogleCalendarWebhook.js lines
455-634: a 400 for missing fields or calendar id, a 500 when the
date/time branch is entered with absent fields (the JS throws on
`undefined.toUpperCase()` and the catch returns 500), or the event insert
actually issued to the calendar with the given start/end instants.  The
handler has no conflict-related outcome. -/
inductive BookResult where
  | missingFields
  | missingCalendarId
  | serverError
  | booked (start stop : Int)
deriving DecidableEq, Repr

/-- The booking fields after the handler's extraction chain
(`body.invocation_data` unwrapping and `bookingData.x || bookingData.data?.x`
fallbacks, lines 460-484 — request-shape plumbing): calendar id (the
`extractCalendarId` fallback ends in `'primary'`), optional date, optional
clock times, and optional ISO instants from a slot selection. -/
structure BookingData where
  calendarId : String
  date : Option Int
  start_time : Option TimeField
  end_time : Option TimeField
  startISO : Option Int
  endISO : Option Int
deriving DecidableEq, Repr

/-- The POST `/book` control flow of src/GoogleCalendarWebhook.js lines
497-611: validate (`!startISO && (!date || !startTime || !endTime)`, then
`!calendarId`), build the event either from the ISO pair directly or from
`date` plus the two times (12-hour parsing when `start_time` carries an
AM/PM marker, bare HH:MM in the zone otherwise), then issue
`calendar.events.insert`.  No busy data is fetched and no conflict check of
any kind occurs before the insert. -/
def bookHandler (bd : BookingData) (off : Int) : BookResult :=
  if bd.startISO = none ∧ (bd.date = none ∨ bd.start_time = none ∨ bd.end_time = none) then
    .missingFields
  else if bd.calendarId = "" then
    .missingCalendarId
  else
    match bd.startISO, bd.endISO with
    | some s, some e => .booked s e
    | _, _ =>
      match bd.date, bd.start_time, bd.end_time with
      | some d, some st, some et =>
        if st.marker.isSome then
          .booked (parseTime12Hour st d off) (parseTime12Hour et d off)
        else
          .booked (d * 1440 + st.hour * 60 + st.minute - off)
            (d * 1440 + et.hour * 60 + et.minute - off)
      | _, _, _ => .serverError

/-- C2 (amended): the `/book` handler performs no booking conflict guard:
for every request selecting a slot by its ISO instants — even one whose
chosen interval conflicts, under the half-open rule, with a busy interval
present in freshly fetched busy data for the target day — the handler
issues the reservation (`calendar.events.insert`) with exactly the chosen
interval.  No `SlotNoLongerAvailable` outcome exists in the code. -/
theorem bookHandler_no_conflict_guard (bd : BookingData) (off : Int)
    (busy : List Iv) (s e : Int)
    (hs : bd.startISO = some s) (he : bd.endISO = some e)
    (hcal : ¬bd.calendarId = "")
    (_hconf : ∃ b ∈ busy, s < b.stop ∧ b.start < e) :
    bookHandler bd off = .booked s e := by
  unfold bookHandler
  rw [if_neg (by simp [hs]), if_neg hcal, hs, he]

/-- Witness for the C2 theorem: booking 10:00-11:00 Eastern of day 0
(instants 600-660) while the fresh busy data contains 10:30-11:40
(630-700), which conflicts with the chosen interval; the event is inserted
anyway. -/
theorem bookHandler_no_conflict_guard_witness :
    bookHandler ⟨"primary", none, none, none, some 600, some 660⟩ (-300)
      = .booked 600 660 :=
  bookHandler_no_conflict_guard ⟨"primary", none, none, none, some 600, some 660⟩
    (-300) [⟨630, 700⟩] 600 660 rfl rfl (by decide) (by decide)

/-- C2 counterexample: the chosen interval 600-660 conflicts with the busy
interval 630-700 under the half-open rule, yet the `/book` handler returns
the issued reservation (`booked 600 660`) rather than any
slot-no-longer-available result, and creates the event. -/
theorem booking_despite_conflict_counterexample :
    ([(⟨630, 700⟩ : Iv)].any fun b => decide (600 < b.stop) && decide (b.start < 660)) = true ∧
    bookHandler ⟨"primary", none, none, none, some 600, some 660⟩ (-300)
      = .booked 600 660 := by decide

/-- A date string as consumed by `resolveIntendedDate`
(src/GoogleCalendarWebhook.js): `parse1` is the `DateTime.fromISO` oracle on
the string, `parse2` the `DateTime.fromFormat(dateStr, 'yyyy-MM-dd')`
fallback, and `examplePrefix` whether the string starts with one of the
known Retell example prefixes ('2024-05-15', '2024-05-17', '2004-').  A
missing/empty date is `none` at the outer level. -/
structure RawDate where
  parse1 : Option Int
  parse2 : Option Int
  examplePrefix : Bool
deriving DecidableEq, Repr

/-- `isRetellExampleDate(dateStr)` of src/GoogleCalendarWebhook.js lines
31-63: false for a missing string; true on a known example prefix; true when
the parsed date lies more than 30 days (43200 minutes) in the past
(`now.diff(date, 'days').days > 30`); an unparsable date gives `NaN > 30`,
which is false. -/
def isRetellExampleDate (input : Option RawDate) (now : Int) : Bool :=
  match input with
  | none => false
  | some rd =>
    if rd.examplePrefix then true
    else
      match rd.parse1 with
      | some d => decide (43200 < now - d)
      | none => false

/-- The result record of `resolveIntendedDate` (the echoed `original` field
is omitted: it repeats the input verbatim). -/
structure DateResolution where
  date : Int
  wasExample : Bool
  checkMultipleDays : Bool
deriving DecidableEq, Repr

/-- `resolveIntendedDate(dateStr, timezone)` of src/GoogleCalendarWebhook.js
lines 68-129: a missing or example date resolves to today with a multi-day
scan; an unparsable date (both parses invalid) resolves to today without
one (the `catch` branch is unreachable — `DateTime.fromISO` does not throw);
a date before the start of today resolves to today with a multi-day scan;
otherwise the date itself is used.  `today` is `now.toISODate()` (day index
`now / 1440`) and `startOfToday` is `(now / 1440) * 1440`. -/
def resolveIntendedDate (input : Option RawDate) (now : Int) : DateResolution :=
  if input = none ∨ isRetellExampleDate input now then
    ⟨now / 1440, true, true⟩
  else
    match input with
    | none => ⟨now / 1440, true, true⟩
    | some rd =>
      match (match rd.parse1 with | some d => some d | none => rd.parse2) with
      | none => ⟨now / 1440, false, false⟩
      | some td =>
        if td < (now / 1440) * 1440 then ⟨now / 1440, false, true⟩
        else ⟨td / 1440, false, false⟩

/-- C10: the date resolution always returns a valid date that is never
earlier than the current day: a missing date, a known-example date, an
unparsable date, and a past date are all silently replaced by today (none is
reported as an error), and missing/example and past inputs additionally set
the multi-day-scan flag. -/
theorem resolveIntendedDate_never_past (input : Option RawDate) (now : Int) :
    now / 1440 ≤ (resolveIntendedDate input now).date ∧
    (input = none → resolveIntendedDate input now = ⟨now / 1440, true, true⟩) ∧
    (∀ rd, input = some rd → rd.examplePrefix = true →
      resolveIntendedDate input now = ⟨now / 1440, true, true⟩) ∧
    (∀ rd, input = some rd → rd.parse1 = none → rd.parse2 = none →
      (resolveIntendedDate input now).date = now / 1440) ∧
    (∀ rd td, input = some rd →
      (rd.parse1 = some td ∨ (rd.parse1 = none ∧ rd.parse2 = some td)) →
      td < (now / 1440) * 1440 →
      (resolveIntendedDate input now).date = now / 1440 ∧
      (resolveIntendedDate input now).checkMultipleDays = true) := by
  refine ⟨?_, ?_, ?_, ?_, ?_⟩
  · unfold resolveIntendedDate
    split
    · exact le_rfl
    · rcases input with _ | rd
      · exact le_rfl
      · rcases h1 : rd.parse1 with _ | d1
        · rcases h2 : rd.parse2 with _ | d2
          · simp only [h1, h2]
            exact le_rfl
          · simp only [h1, h2]
            split
            · exact le_rfl
            · show now / 1440 ≤ d2 / 1440
              omega
        · simp only [h1]
          split
          · exact le_rfl
          · show now / 1440 ≤ d1 / 1440
            omega
  · intro h
    subst h
    rfl
  · intro rd h hpre
    subst h
    unfold resolveIntendedDate
    rw [if_pos (Or.inr (by simp [isRetellExampleDate, hpre]))]
  · intro rd h h1 h2
    subst h
    unfold resolveIntendedDate
    split
    · rfl
    · simp only [h1, h2]
  · intro rd td h hparse hpast
    subst h
    unfold resolveIntendedDate
    split
    · exact ⟨rfl, rfl⟩
    · rcases hparse with h1 | ⟨h1, h2⟩
      · simp only [h1]
        rw [if_pos hpast]
        exact ⟨rfl, rfl⟩
      · simp only [h1, h2]
        rw [if_pos hpast]
        exact ⟨rfl, rfl⟩

/-- Witness for the C10 theorem at concrete inputs: a date parsing to minute
-20000 (about 14 days before `now = 0`, so in the past but not old enough to
count as an example) resolves to today (day 0) with the multi-day flag set. -/
theorem resolveIntendedDate_never_past_witness :
    (resolveIntendedDate (some ⟨some (-20000), none, false⟩) 0).date = 0 / 1440 ∧
    (resolveIntendedDate (some ⟨some (-20000), none, false⟩) 0).checkMultipleDays = true :=
  (resolveIntendedDate_never_past (some ⟨some (-20000), none, false⟩) 0).2.2.2.2
    ⟨some (-20000), none, false⟩ (-20000) rfl (Or.inl rfl) (by decide)
